import Mathlib

/-!
Verification development for the regen repository: a shallow embedding of
the client-side edit/undo state machine with optimistic server
synchronization (src/frontend/src/hooks/useTranscription.ts), the
word-level diff renderer (src/frontend/src/components/TranscriptSegment.tsx)
and the transcription status poll loop (useAudioUpload hook).

Modelling conventions: JavaScript numbers that the properties touch are
integers here; asynchronous server calls are modelled by an explicit
outcome parameter (success or failure with a message); the network calls a
function issues are logged in a dedicated state field; React state setters
become functional state updates applied in program order, and the sole
relevant effect (rebuilding the speaker-name map when the speaker labels
change) is applied at the point where React would run it.
-/

namespace Regen

/-! ## Word-level diff (computeWordDiff in TranscriptSegment.tsx) -/

inductive DiffType where
  | added
  | removed
  | unchanged
deriving DecidableEq, Repr

structure DiffPart where
  type : DiffType
  text : String
deriving DecidableEq, Repr

/-- JavaScript String.prototype.trim, on the character sequence: drop
leading and trailing whitespace. -/
def jsTrim (s : String) : String :=
  String.mk (((s.data.dropWhile Char.isWhitespace).reverse.dropWhile Char.isWhitespace).reverse)

/-- JavaScript split on the whitespace-run pattern, applied to an already
trimmed string: splitting the empty string yields the singleton list holding
the empty string; otherwise maximal whitespace runs separate the nonempty
tokens, so filtering the empty pieces out of a character-level split gives
the same list. -/
def jsSplitWs (s : String) : List String :=
  if s = "" then [""]
  else ((s.data.splitOnP Char.isWhitespace).map String.mk).filter (fun w => w ≠ "")

/-- The two-cursor walk of the while loop in computeWordDiff
(TranscriptSegment.tsx, lines 223 to 259), on the word lists. The loop
advances at least one of the cursors each iteration, so it runs at most
(length of originalWords) + (length of editedWords) iterations; that bound
is supplied as structural fuel, and diffGo_fuel below proves any
sufficient fuel yields the same result, so the zero-fuel branch is never
reached from computeWordDiff. -/
def diffGo : Nat → List String → List String → List DiffPart
  | 0, _, _ => []
  | _ + 1, [], [] => []
  | fuel + 1, [], ej :: js =>
      -- only edited words remain
      ⟨.added, ej⟩ :: diffGo fuel [] js
  | fuel + 1, oi :: os, [] =>
      -- only original words remain
      ⟨.removed, oi⟩ :: diffGo fuel os []
  | fuel + 1, oi :: os, ej :: js =>
      if oi = ej then
        ⟨.unchanged, oi⟩ :: diffGo fuel os js
      else
        -- words differ: check whether the next words match; on the word
        -- lists, the source guard (there is a word at the next cursor
        -- position and it equals the other current word) is a head check
        -- on the remainder past the current word
        let origNextMatchesEdited := os.head? == some ej
        let editedNextMatchesOrig := js.head? == some oi
        if origNextMatchesEdited then
          ⟨.removed, oi⟩ :: diffGo fuel os (ej :: js)
        else if editedNextMatchesOrig then
          ⟨.added, ej⟩ :: diffGo fuel (oi :: os) js
        else
          ⟨.removed, oi⟩ :: ⟨.added, ej⟩ :: diffGo fuel os js

/-- computeWordDiff from TranscriptSegment.tsx: trim and split both strings
on whitespace, then walk both word lists. -/
def computeWordDiff (original edited : String) : List DiffPart :=
  let originalWords := jsSplitWs (jsTrim original)
  let editedWords := jsSplitWs (jsTrim edited)
  diffGo (originalWords.length + editedWords.length) originalWords editedWords

/-- Any fuel at least the total number of remaining words gives the same
walk: the fuel is invisible, so diffGo with the bound used by
computeWordDiff is the while loop itself. -/
theorem diffGo_fuel : ∀ (f g : Nat) (os es : List String),
    os.length + es.length ≤ f → os.length + es.length ≤ g →
    diffGo f os es = diffGo g os es := by
  intro f
  induction f with
  | zero =>
    intro g os es hf _
    have hos : os = [] := by
      cases os <;> simp_all
    have hes : es = [] := by
      cases es <;> simp_all
    subst hos; subst hes
    cases g <;> rfl
  | succ f ih =>
    intro g os es hf hg
    match g, os, es with
    | 0, os, es =>
      have hos : os = [] := by cases os <;> simp_all
      have hes : es = [] := by cases es <;> simp_all
      subst hos; subst hes; rfl
    | g + 1, [], [] => rfl
    | g + 1, [], ej :: js =>
      simp only [diffGo]
      rw [ih g [] js (by simp_all) (by simp_all)]
    | g + 1, oi :: os, [] =>
      simp only [diffGo]
      rw [ih g os [] (by simp_all) (by simp_all)]
    | g + 1, oi :: os, ej :: js =>
      simp only [diffGo]
      split
      · rw [ih g os js (by simp_all; omega) (by simp_all; omega)]
      · split
        · rw [ih g os (ej :: js) (by simp_all; omega) (by simp_all; omega)]
        · split
          · rw [ih g (oi :: os) js (by simp_all; omega) (by simp_all; omega)]
          · rw [ih g os js (by simp_all; omega) (by simp_all; omega)]

/-- The diff walk as the specification words it (section 4.3): equal
current words emit unchanged and advance both; an exhausted side emits the
remainder of the other side; on a mismatch, a single lookahead decides
between pure deletion, pure insertion, and substitution. -/
def diffWalkSpec : List String → List String → List DiffPart
  | [], es => es.map (fun w => ⟨.added, w⟩)
  | oi :: os, [] => (oi :: os).map (fun w => ⟨.removed, w⟩)
  | oi :: os, ej :: js =>
      if oi = ej then
        ⟨.unchanged, oi⟩ :: diffWalkSpec os js
      else if os.head? = some ej then
        ⟨.removed, oi⟩ :: diffWalkSpec os (ej :: js)
      else if js.head? = some oi then
        ⟨.added, ej⟩ :: diffWalkSpec (oi :: os) js
      else
        ⟨.removed, oi⟩ :: ⟨.added, ej⟩ :: diffWalkSpec os js
termination_by os es => os.length + es.length
decreasing_by all_goals simp_arith

/-- The diff renderer as the specification words it, end to end. -/
def computeWordDiffSpec (original edited : String) : List DiffPart :=
  diffWalkSpec (jsSplitWs (jsTrim original)) (jsSplitWs (jsTrim edited))

theorem diffGo_nil_left (es : List String) :
    diffGo es.length [] es = es.map (fun w => ⟨.added, w⟩) := by
  induction es with
  | nil => rfl
  | cons e js ih => simpa [diffGo] using ih

theorem diffGo_nil_right (os : List String) :
    diffGo os.length os [] = os.map (fun w => ⟨.removed, w⟩) := by
  induction os with
  | nil => rfl
  | cons o js ih => simpa [diffGo] using ih

/-- One-step unfolding of the walk on two cons cells; holds by definition
since diffGo is structurally recursive on the fuel. -/
theorem diffGo_cons_cons (fuel : Nat) (oi ej : String) (os js : List String) :
    diffGo (fuel + 1) (oi :: os) (ej :: js) =
      if oi = ej then
        ⟨.unchanged, oi⟩ :: diffGo fuel os js
      else if os.head? == some ej then
        ⟨.removed, oi⟩ :: diffGo fuel os (ej :: js)
      else if js.head? == some oi then
        ⟨.added, ej⟩ :: diffGo fuel (oi :: os) js
      else
        ⟨.removed, oi⟩ :: ⟨.added, ej⟩ :: diffGo fuel os js := rfl

theorem diffGo_eq_spec (os es : List String) :
    diffGo (os.length + es.length) os es = diffWalkSpec os es := by
  induction os, es using diffWalkSpec.induct with
  | case1 es =>
    rw [diffWalkSpec]
    simpa using diffGo_nil_left es
  | case2 oi os =>
    rw [diffWalkSpec]
    simpa using diffGo_nil_right (oi :: os)
  | case3 os ej js ih =>
    have hfuel : (ej :: os).length + (ej :: js).length = (os.length + js.length + 1) + 1 := by
      simp_arith
    rw [hfuel, diffGo_cons_cons, diffWalkSpec, if_pos rfl, if_pos rfl,
      diffGo_fuel (os.length + js.length + 1) (os.length + js.length) os js (by omega) (by omega),
      ih]
  | case4 oi os ej js h h2 ih =>
    have hb : (os.head? == some ej) = true := by simpa using h2
    have hfuel : (oi :: os).length + (ej :: js).length = (os.length + (ej :: js).length) + 1 := by
      simp_arith
    rw [hfuel, diffGo_cons_cons, diffWalkSpec, if_neg h, if_neg h, if_pos h2, if_pos hb, ih]
  | case5 oi os ej js h h2 h3 ih =>
    have hbo : ¬ ((os.head? == some ej) = true) := by simpa using h2
    have hbe : (js.head? == some oi) = true := by simpa using h3
    have hfuel : (oi :: os).length + (ej :: js).length = ((oi :: os).length + js.length) + 1 := by
      simp_arith
    rw [hfuel, diffGo_cons_cons, diffWalkSpec, if_neg h, if_neg h, if_neg h2, if_pos h3,
      if_neg hbo, if_pos hbe, ih]
  | case6 oi os ej js h h2 h3 ih =>
    have hbo : ¬ ((os.head? == some ej) = true) := by simpa using h2
    have hbe : ¬ ((js.head? == some oi) = true) := by simpa using h3
    have hfuel : (oi :: os).length + (ej :: js).length = (os.length + js.length + 1) + 1 := by
      simp_arith
    rw [hfuel, diffGo_cons_cons, diffWalkSpec, if_neg h, if_neg h, if_neg h2, if_neg h3,
      if_neg hbo, if_neg hbe,
      diffGo_fuel (os.length + js.length + 1) (os.length + js.length) os js (by omega) (by omega),
      ih]

/-- If filtering the empty tokens out of a whitespace split leaves
nothing, every character was whitespace. -/
theorem splitOnP_filter_eq_nil {p : Char → Bool} : ∀ l : List Char,
    ((l.splitOnP p).map String.mk).filter (fun w => w ≠ "") = [] → ∀ c ∈ l, p c = true := by
  intro l
  induction l with
  | nil => simp
  | cons c cs ih =>
    intro hfil d hd
    rw [List.splitOnP_cons] at hfil
    by_cases hc : p c
    · rw [if_pos hc] at hfil
      simp only [List.map_cons, List.filter_cons] at hfil
      have hfil2 : ((cs.splitOnP p).map String.mk).filter (fun w => w ≠ "") = [] := by
        revert hfil
        split <;> simp_all
      rcases List.mem_cons.mp hd with h1 | h2
      · exact h1 ▸ hc
      · exact ih hfil2 d h2
    · exfalso
      rw [if_neg hc] at hfil
      rcases hsplit : cs.splitOnP p with _ | ⟨piece, rest⟩
      · exact List.splitOnP_ne_nil p cs hsplit
      · rw [hsplit] at hfil
        simp only [List.modifyHead, List.map_cons, List.filter_cons] at hfil
        have hne : (String.mk (c :: piece)) ≠ "" := by
          intro hmk
          have hdat : (c :: piece) = ("" : String).data := congrArg String.data hmk
          simp at hdat
        simp [hne] at hfil

/-- The word list computeWordDiff feeds the walk is never empty: an empty
or all-whitespace input trims to the empty string, which splits to the
singleton list holding the empty string, and a trimmed nonempty string
keeps at least one character that is not whitespace, hence at least one
nonempty token. -/
theorem jsWords_ne_nil (s : String) : jsSplitWs (jsTrim s) ≠ [] := by
  unfold jsSplitWs
  by_cases h : jsTrim s = ""
  · simp [h]
  · rw [if_neg h]
    intro hfil
    apply h
    have hall := splitOnP_filter_eq_nil (jsTrim s).data hfil
    -- every character of the trimmed string would be whitespace, but the
    -- trimmed string starts with a character that is not whitespace
    have hdata : (jsTrim s).data ≠ [] := fun hd => h (String.ext (hd.trans rfl))
    unfold jsTrim at hdata hall ⊢
    set m := (s.data.dropWhile Char.isWhitespace).reverse with hm
    have hlen : 0 < (m.dropWhile Char.isWhitespace).length := by
      rcases hcase : m.dropWhile Char.isWhitespace with _ | ⟨x, xs⟩
      · rw [hcase] at hdata; simp at hdata
      · simp [hcase]
    have hhead := List.dropWhile_get_zero_not Char.isWhitespace m hlen
    have hmem : (m.dropWhile Char.isWhitespace).get ⟨0, hlen⟩ ∈
        ((m.dropWhile Char.isWhitespace).reverse : List Char) := by
      rw [List.mem_reverse]
      exact List.get_mem _ _ hlen
    exact absurd (hall _ hmem) (by simpa using hhead)

/-- The walk emits at least one part whenever a word remains on either
side. -/
theorem diffGo_cons_ne_nil (fuel : Nat) (os es : List String)
    (h : os ≠ [] ∨ es ≠ []) : diffGo (fuel + 1) os es ≠ [] := by
  rcases os with _ | ⟨oi, os⟩ <;> rcases es with _ | ⟨ej, js⟩
  · simp at h
  · simp [diffGo]
  · simp [diffGo]
  · rw [diffGo_cons_cons]
    split
    · simp
    · split
      · simp
      · split <;> simp

/-- C7: computeWordDiff splits both strings on whitespace and walks them
with two cursors applying the single-lookahead mismatch rule, as the
specification describes (computeWordDiffSpec); in particular the diff of
original "the quick fox" against edited "the quick brown fox" is exactly
unchanged the, unchanged quick, added brown, unchanged fox. -/
theorem C7_computeWordDiff_follows_spec_walk :
    (∀ original edited, computeWordDiff original edited = computeWordDiffSpec original edited)
    ∧ computeWordDiff "the quick fox" "the quick brown fox" =
      [⟨.unchanged, "the"⟩, ⟨.unchanged, "quick"⟩, ⟨.added, "brown"⟩, ⟨.unchanged, "fox"⟩] := by
  refine ⟨fun original edited => ?_, by decide⟩
  simp only [computeWordDiff, computeWordDiffSpec]
  exact diffGo_eq_spec _ _

/-- C10: computeWordDiff never returns an empty part list, because an empty
or whitespace-only string splits to the single-element word list holding
the empty string; in particular diffing empty original against the word
hello yields a removed part with empty text alongside the added word,
rather than added parts only. -/
theorem C10_computeWordDiff_ne_nil_empty_string_word :
    (∀ original edited, computeWordDiff original edited ≠ [])
    ∧ jsSplitWs (jsTrim "") = [""]
    ∧ jsSplitWs (jsTrim "   ") = [""]
    ∧ computeWordDiff "" "hello" = [⟨.removed, ""⟩, ⟨.added, "hello"⟩] := by
  refine ⟨fun original edited => ?_, by decide, by decide, by decide⟩
  simp only [computeWordDiff]
  rcases hw : jsSplitWs (jsTrim original) with _ | ⟨w, ws⟩
  · exact absurd hw (jsWords_ne_nil original)
  · have hlen : (w :: ws).length + (jsSplitWs (jsTrim edited)).length =
        (ws.length + (jsSplitWs (jsTrim edited)).length) + 1 := by simp_arith
    rw [hlen]
    exact diffGo_cons_ne_nil _ _ _ (Or.inl (by simp))

/-! ## Data model (API types from the frontend service layer) -/

/-- Per-word annotation on a segment. Numeric timing and confidence values
are carried abstractly as integers; no operation below computes with them. -/
structure Word where
  text : String
  start : Int
  «end» : Int
  confidence : Int
  is_filler : Bool
deriving DecidableEq, Repr

structure Segment where
  id : String
  segment_index : Int
  start_time : Int
  end_time : Int
  text : String
  original_text : Option String
  speaker_id : String
  confidence : Int
  words : List Word
  is_edited : Bool
  created_at : String
  updated_at : String
deriving DecidableEq, Repr

structure SpeakerLabel where
  id : String
  transcript_id : String
  speaker_id : String
  custom_name : Option String
  color : String
  created_at : String
  updated_at : String
deriving DecidableEq, Repr

inductive TranscriptStatus where
  | pending
  | processing
  | completed
  | failed
deriving DecidableEq, Repr

structure Transcript where
  id : String
  filename : String
  storage_path : Option String
  status : TranscriptStatus
  duration : Option Int
  num_speakers : Int
  full_text : Option String
  segments : List Segment
  speaker_labels : List SpeakerLabel
  created_at : String
  updated_at : String
deriving DecidableEq, Repr

/-! ## Edit history state (useTranscription.ts) -/

structure EditHistoryItem where
  segmentId : String
  previousText : String
  newText : String
  timestamp : Int
deriving DecidableEq, Repr

def MAX_HISTORY : Nat := 50

/-- Outcome of an awaited server call: the promise resolves, or rejects and
the catch block receives the human-readable message of the error. -/
inductive ServerOutcome where
  | ok
  | fail (msg : String)
deriving DecidableEq, Repr

/-- A network request issued by the hook, logged so that claims about which
calls go out are statable. -/
inductive ApiRequest where
  | updateSegment (segmentId text : String)
  | updateSpeakerLabel (labelId customName : String)
deriving DecidableEq, Repr

/-- The state of the useTranscription hook: the useState cells, plus the
log of issued requests. The isUndoRedo ref is not state; it is passed as
an explicit flag to updateSegmentText, since in the source it is set
directly around the replay call. -/
structure HookState where
  transcript : Option Transcript
  loading : Bool
  error : Option String
  speakerNames : String → Option String
  editHistory : List EditHistoryItem
  historyIndex : Int
  requests : List ApiRequest

/-- Pointwise update of the speaker-name record. -/
def setName (m : String → Option String) (k v : String) : String → Option String :=
  fun x => if x = k then some v else m x

/-- JavaScript or-else on a nullable string: null and the empty string are
falsy, so both fall through to the default. -/
def jsOrDefault (o : Option String) (d : String) : String :=
  match o with
  | some s => if s = "" then d else s
  | none => d

/-- The effect at useTranscription.ts lines 51 to 59: rebuild the
speaker-name record from the speaker labels whenever the labels change. -/
def buildSpeakerNames (labels : List SpeakerLabel) : String → Option String :=
  labels.foldl
    (fun m l => setName m l.speaker_id (jsOrDefault l.custom_name ("Speaker " ++ l.speaker_id)))
    (fun _ => none)

/-- updateSegmentText (useTranscription.ts lines 76 to 134). The now
argument stands for Date.now(), read only when a history entry is
recorded. -/
def updateSegmentText (s : HookState) (segmentId text : String) (isUndoRedo : Bool)
    (now : Int) (outcome : ServerOutcome) : HookState :=
  match s.transcript with
  | none => s
  | some transcript =>
    -- find the segment
    match transcript.segments.find? (fun sg => sg.id == segmentId) with
    | none => s
    | some segment =>
      if segment.text = text then s
      else
        -- add to history if not an undo/redo operation
        let s1 :=
          if isUndoRedo then s
          else
            let historyItem : EditHistoryItem :=
              { segmentId := segmentId, previousText := segment.text, newText := text,
                timestamp := now }
            -- remove any future history if we are not at the end, then push
            let newHistory := s.editHistory.take (s.historyIndex + 1).toNat ++ [historyItem]
            -- keep only the last MAX_HISTORY items
            let newHistory2 :=
              if MAX_HISTORY < newHistory.length then newHistory.tail else newHistory
            { s with editHistory := newHistory2,
                     historyIndex := min (s.historyIndex + 1) ((MAX_HISTORY : Int) - 1) }
        -- update local state optimistically
        let optimistic :=
          { transcript with segments := transcript.segments.map (fun sg =>
              if sg.id == segmentId then { sg with text := text, is_edited := true } else sg) }
        let s2 := { s1 with transcript := some optimistic,
                            requests := s1.requests ++ [.updateSegment segmentId text] }
        -- update on server; revert on error
        match outcome with
        | .ok => s2
        | .fail msg =>
          { s2 with
              transcript := some { optimistic with segments := optimistic.segments.map (fun sg =>
                  if sg.id == segmentId then { sg with text := segment.text } else sg) },
              error := some msg }

/-- renameSpeaker (useTranscription.ts lines 136 to 169). The optimistic
setSpeakerNames write is immediately superseded by the speaker-name
effect, which reruns because the optimistic transcript write replaces the
speaker_labels array; the failure path then reverts only the name record,
not the transcript. -/
def renameSpeaker (s : HookState) (labelId name : String) (outcome : ServerOutcome) : HookState :=
  match s.transcript with
  | none => s
  | some transcript =>
    match transcript.speaker_labels.find? (fun l => l.id == labelId) with
    | none => s
    | some label =>
      -- update local state optimistically (name record, then transcript)
      let _optimisticNames := setName s.speakerNames label.speaker_id name
      let t1 := { transcript with speaker_labels := transcript.speaker_labels.map (fun l =>
          if l.id == labelId then { l with custom_name := some name } else l) }
      -- the speaker-name effect reruns on the new labels array and
      -- rebuilds the record, overwriting _optimisticNames with the same
      -- entry for this speaker
      let s1 := { s with speakerNames := buildSpeakerNames t1.speaker_labels,
                         transcript := some t1,
                         requests := s.requests ++ [.updateSpeakerLabel labelId name] }
      -- update on server; revert the name record on error
      match outcome with
      | .ok => s1
      | .fail msg =>
        { s1 with
            speakerNames := setName s1.speakerNames label.speaker_id
              (jsOrDefault label.custom_name ("Speaker " ++ label.speaker_id)),
            error := some msg }

/-- loadTranscript (useTranscription.ts lines 61 to 74), with the
speaker-name effect applied on success. -/
def loadTranscript (s : HookState) (result : Except String Transcript) : HookState :=
  match result with
  | .ok t =>
    { s with loading := false, error := none, transcript := some t,
             speakerNames := buildSpeakerNames t.speaker_labels,
             editHistory := [], historyIndex := -1 }
  | .error msg => { s with loading := false, error := some msg }

/-- undo (useTranscription.ts lines 171 to 179): the guard covers a
negative cursor and a missing entry; the replay call runs with the
re-entrancy flag set, then the cursor moves back. Date.now() is not read
on the suppressed path, so the now argument is irrelevant and fixed at 0. -/
def undo (s : HookState) (outcome : ServerOutcome) : HookState :=
  if s.historyIndex < 0 then s
  else
    match s.editHistory.get? s.historyIndex.toNat with
    | none => s
    | some item =>
      let s1 := updateSegmentText s item.segmentId item.previousText true 0 outcome
      { s1 with historyIndex := s1.historyIndex - 1 }

/-- redo (useTranscription.ts lines 181 to 189). The source reads the
entry at cursor + 1 without a guard; when the history invariant holds the
guard on the cursor makes that read safe, and the out-of-bounds case
(where the source would fail on an undefined entry) is modelled as a
no-op. -/
def redo (s : HookState) (outcome : ServerOutcome) : HookState :=
  if (s.editHistory.length : Int) - 1 ≤ s.historyIndex then s
  else
    match s.editHistory.get? (s.historyIndex + 1).toNat with
    | none => s
    | some item =>
      let s1 := updateSegmentText s item.segmentId item.newText true 0 outcome
      { s1 with historyIndex := s1.historyIndex + 1 }

def canUndo (s : HookState) : Bool := decide (0 ≤ s.historyIndex)

def canRedo (s : HookState) : Bool := decide (s.historyIndex < (s.editHistory.length : Int) - 1)

/-- The user-reachable operations on the hook state, each carrying the
outcome of its server call. -/
inductive HookOp where
  | load (result : Except String Transcript)
  | edit (segmentId text : String) (now : Int) (outcome : ServerOutcome)
  | rename (labelId name : String) (outcome : ServerOutcome)
  | undoOp (outcome : ServerOutcome)
  | redoOp (outcome : ServerOutcome)

def stepOp (s : HookState) : HookOp → HookState
  | .load r => loadTranscript s r
  | .edit sid text now oc => updateSegmentText s sid text false now oc
  | .rename lid nm oc => renameSpeaker s lid nm oc
  | .undoOp oc => undo s oc
  | .redoOp oc => redo s oc

def runOps (s : HookState) (ops : List HookOp) : HookState := ops.foldl stepOp s

/-- The initial hook state. -/
def initState : HookState where
  transcript := none
  loading := false
  error := none
  speakerNames := fun _ => none
  editHistory := []
  historyIndex := -1
  requests := []

/-- The history invariant: the log never exceeds the cap and the cursor
stays between -1 and the last index. -/
def HistInv (s : HookState) : Prop :=
  s.editHistory.length ≤ MAX_HISTORY ∧ -1 ≤ s.historyIndex ∧
    s.historyIndex ≤ (s.editHistory.length : Int) - 1

/-! ## Characterization lemmas for updateSegmentText -/

/-- Without a loaded transcript, updateSegmentText returns the state
unchanged. -/
theorem updateSegmentText_no_transcript (s : HookState) (sid text : String) (flag : Bool)
    (now : Int) (oc : ServerOutcome) (htr : s.transcript = none) :
    updateSegmentText s sid text flag now oc = s := by
  simp [updateSegmentText, htr]

/-- With the segment missing, or the new text equal to the current text,
updateSegmentText returns the state unchanged. -/
theorem updateSegmentText_noop (s : HookState) (sid text : String) (flag : Bool)
    (now : Int) (oc : ServerOutcome) (t : Transcript) (htr : s.transcript = some t)
    (h : t.segments.find? (fun sg => sg.id == sid) = none ∨
      ∃ segment, t.segments.find? (fun sg => sg.id == sid) = some segment ∧
        segment.text = text) :
    updateSegmentText s sid text flag now oc = s := by
  rcases h with hf | ⟨segment, hf, he⟩
  · simp [updateSegmentText, htr, hf]
  · simp [updateSegmentText, htr, hf, he]

/-- Full characterization of a recording call (user edit, re-entrancy flag
clear): the branch truncation, push, cap eviction, cursor bump, optimistic
segment write, request, and rollback-with-error on failure. -/
theorem updateSegmentText_record (s : HookState) (sid text : String) (now : Int)
    (oc : ServerOutcome) (t : Transcript) (segment : Segment)
    (htr : s.transcript = some t)
    (hfind : t.segments.find? (fun sg => sg.id == sid) = some segment)
    (hne : ¬ segment.text = text) :
    updateSegmentText s sid text false now oc =
      (let newHistory :=
        s.editHistory.take (s.historyIndex + 1).toNat ++
          [{ segmentId := sid, previousText := segment.text, newText := text,
             timestamp := now }]
      let newHistory2 :=
        if MAX_HISTORY < newHistory.length then newHistory.tail else newHistory
      let newIdx := min (s.historyIndex + 1) ((MAX_HISTORY : Int) - 1)
      let optimisticSegs := t.segments.map (fun sg =>
        if sg.id == sid then { sg with text := text, is_edited := true } else sg)
      match oc with
      | .ok =>
        { s with transcript := some { t with segments := optimisticSegs },
                 editHistory := newHistory2, historyIndex := newIdx,
                 requests := s.requests ++ [.updateSegment sid text] }
      | .fail msg =>
        { s with transcript := some { t with segments := optimisticSegs.map (fun sg =>
                   if sg.id == sid then { sg with text := segment.text } else sg) },
                 editHistory := newHistory2, historyIndex := newIdx,
                 requests := s.requests ++ [.updateSegment sid text],
                 error := some msg }) := by
  cases oc <;> simp [updateSegmentText, htr, hfind, hne]

/-- Full characterization of a suppressed replay call (undo/redo): the
history log and cursor are untouched; only the optimistic write, the
request, and the possible rollback happen. -/
theorem updateSegmentText_replay (s : HookState) (sid text : String) (now : Int)
    (oc : ServerOutcome) (t : Transcript) (segment : Segment)
    (htr : s.transcript = some t)
    (hfind : t.segments.find? (fun sg => sg.id == sid) = some segment)
    (hne : ¬ segment.text = text) :
    updateSegmentText s sid text true now oc =
      (let optimisticSegs := t.segments.map (fun sg =>
        if sg.id == sid then { sg with text := text, is_edited := true } else sg)
      match oc with
      | .ok =>
        { s with transcript := some { t with segments := optimisticSegs },
                 requests := s.requests ++ [.updateSegment sid text] }
      | .fail msg =>
        { s with transcript := some { t with segments := optimisticSegs.map (fun sg =>
                   if sg.id == sid then { sg with text := segment.text } else sg) },
                 requests := s.requests ++ [.updateSegment sid text],
                 error := some msg }) := by
  cases oc <;> simp [updateSegmentText, htr, hfind, hne]

/-- A replay call never touches the history log or the cursor, whatever
the state. -/
theorem updateSegmentText_replay_history (s : HookState) (sid text : String)
    (now : Int) (oc : ServerOutcome) :
    (updateSegmentText s sid text true now oc).editHistory = s.editHistory ∧
    (updateSegmentText s sid text true now oc).historyIndex = s.historyIndex := by
  cases htr : s.transcript with
  | none => rw [updateSegmentText_no_transcript s sid text true now oc htr]; exact ⟨rfl, rfl⟩
  | some t =>
    cases hf : t.segments.find? (fun sg => sg.id == sid) with
    | none =>
      rw [updateSegmentText_noop s sid text true now oc t htr (Or.inl hf)]
      exact ⟨rfl, rfl⟩
    | some segment =>
      by_cases he : segment.text = text
      · rw [updateSegmentText_noop s sid text true now oc t htr (Or.inr ⟨segment, hf, he⟩)]
        exact ⟨rfl, rfl⟩
      · rw [updateSegmentText_replay s sid text now oc t segment htr hf he]
        cases oc <;> exact ⟨rfl, rfl⟩

/-! ## Concrete fixtures for witnesses -/

def sampleSegment : Segment where
  id := "seg1"
  segment_index := 0
  start_time := 0
  end_time := 5
  text := "hello world"
  original_text := none
  speaker_id := "A"
  confidence := 1
  words := []
  is_edited := false
  created_at := "t0"
  updated_at := "t0"

def sampleLabel : SpeakerLabel where
  id := "lab1"
  transcript_id := "tr1"
  speaker_id := "A"
  custom_name := none
  color := "#3B82F6"
  created_at := "t0"
  updated_at := "t0"

def sampleTranscript : Transcript where
  id := "tr1"
  filename := "talk.mp3"
  storage_path := none
  status := .completed
  duration := some 10
  num_speakers := 1
  full_text := none
  segments := [sampleSegment]
  speaker_labels := [sampleLabel]
  created_at := "t0"
  updated_at := "t0"

def sampleState : HookState where
  transcript := some sampleTranscript
  loading := false
  error := none
  speakerNames := buildSpeakerNames [sampleLabel]
  editHistory := []
  historyIndex := -1
  requests := []

/-! ## Claims about the edit/undo state machine -/

/-- C6: with no matching segment (including no loaded transcript) or with
text equal to the current text, updateSegmentText is a complete no-op:
the returned state is the argument state, so no request is logged, no
history entry is created, and transcript, log and cursor are unchanged. -/
theorem C6_updateSegmentText_noop_is_frame :
    (∀ (s : HookState) (sid text : String) (flag : Bool) (now : Int) (oc : ServerOutcome),
      s.transcript = none → updateSegmentText s sid text flag now oc = s)
    ∧ (∀ (s : HookState) (sid text : String) (flag : Bool) (now : Int) (oc : ServerOutcome)
        (t : Transcript), s.transcript = some t →
        (t.segments.find? (fun sg => sg.id == sid) = none ∨
          ∃ segment, t.segments.find? (fun sg => sg.id == sid) = some segment ∧
            segment.text = text) →
        updateSegmentText s sid text flag now oc = s) :=
  ⟨fun s sid text flag now oc htr => updateSegmentText_no_transcript s sid text flag now oc htr,
   fun s sid text flag now oc t htr h => updateSegmentText_noop s sid text flag now oc t htr h⟩

/-- Witness for C6 at the sample state: writing the text a segment already
has changes nothing. -/
theorem C6_witness :
    updateSegmentText sampleState "seg1" "hello world" false 0 .ok = sampleState :=
  C6_updateSegmentText_noop_is_frame.2 sampleState "seg1" "hello world" false 0 .ok
    sampleTranscript rfl (Or.inr ⟨sampleSegment, rfl, rfl⟩)

/-- C5: when the server call of a recording edit fails, the segment text
is rolled back to its pre-mutation value while is_edited stays true, the
error message is surfaced, and every other segment is untouched. -/
theorem C5_failed_edit_rolls_back_text_keeps_edited_flag :
    ∀ (s : HookState) (sid text : String) (now : Int) (msg : String) (t : Transcript)
      (segment : Segment),
      s.transcript = some t →
      t.segments.find? (fun sg => sg.id == sid) = some segment →
      ¬ segment.text = text →
      (updateSegmentText s sid text false now (.fail msg)).transcript =
        some { t with segments := t.segments.map (fun sg =>
          if sg.id == sid then { sg with text := segment.text, is_edited := true } else sg) }
      ∧ (updateSegmentText s sid text false now (.fail msg)).error = some msg := by
  intro s sid text now msg t segment htr hfind hne
  rw [updateSegmentText_record s sid text now (.fail msg) t segment htr hfind hne]
  refine ⟨?_, rfl⟩
  simp only [List.map_map]
  have hmap : ∀ sg : Segment,
      ((fun sg => if sg.id == sid then { sg with text := segment.text } else sg) ∘
        (fun sg => if sg.id == sid then { sg with text := text, is_edited := true } else sg)) sg =
      (fun sg => if sg.id == sid then { sg with text := segment.text, is_edited := true } else sg)
        sg := by
    intro sg
    by_cases hid : (sg.id == sid) = true
    · simp [Function.comp, hid]
    · simp [Function.comp, hid]
  rw [funext hmap]

/-- Witness for C5 at the sample state with a failing server call. -/
theorem C5_witness :
    (updateSegmentText sampleState "seg1" "bye" false 3 (.fail "network down")).transcript =
      some { sampleTranscript with segments := sampleTranscript.segments.map (fun sg =>
        if sg.id == "seg1" then { sg with text := sampleSegment.text, is_edited := true }
        else sg) }
    ∧ (updateSegmentText sampleState "seg1" "bye" false 3 (.fail "network down")).error =
      some "network down" :=
  C5_failed_edit_rolls_back_text_keeps_edited_flag sampleState "seg1" "bye" 3 "network down"
    sampleTranscript sampleSegment rfl rfl (by decide)

/-- C1: a suppressed replay never appends to or reorders the history log
and never moves the cursor; consequently an undo that applies an entry
leaves the log unchanged and moves the cursor down by exactly one, and a
redo that applies an entry leaves the log unchanged and moves the cursor
up by exactly one. -/
theorem C1_replay_suppression_keeps_log_linear :
    (∀ (s : HookState) (sid text : String) (now : Int) (oc : ServerOutcome),
      (updateSegmentText s sid text true now oc).editHistory = s.editHistory ∧
      (updateSegmentText s sid text true now oc).historyIndex = s.historyIndex)
    ∧ (∀ (s : HookState) (oc : ServerOutcome),
        0 ≤ s.historyIndex → s.historyIndex ≤ (s.editHistory.length : Int) - 1 →
        (undo s oc).editHistory = s.editHistory ∧
        (undo s oc).historyIndex = s.historyIndex - 1)
    ∧ (∀ (s : HookState) (oc : ServerOutcome),
        -1 ≤ s.historyIndex → s.historyIndex < (s.editHistory.length : Int) - 1 →
        (redo s oc).editHistory = s.editHistory ∧
        (redo s oc).historyIndex = s.historyIndex + 1) := by
  refine ⟨fun s sid text now oc => updateSegmentText_replay_history s sid text now oc, ?_, ?_⟩
  · intro s oc h0 hlast
    have hlt : s.historyIndex.toNat < s.editHistory.length := by omega
    obtain ⟨item, hitem⟩ : ∃ item, s.editHistory.get? s.historyIndex.toNat = some item :=
      ⟨_, List.get?_eq_get hlt⟩
    have hrep := updateSegmentText_replay_history s item.segmentId item.previousText 0 oc
    rw [undo, if_neg (by omega), hitem]
    exact ⟨by simp [hrep.1], by simp [hrep.2]⟩
  · intro s oc hm1 hlast
    have hlt : (s.historyIndex + 1).toNat < s.editHistory.length := by omega
    obtain ⟨item, hitem⟩ : ∃ item, s.editHistory.get? (s.historyIndex + 1).toNat = some item :=
      ⟨_, List.get?_eq_get hlt⟩
    have hrep := updateSegmentText_replay_history s item.segmentId item.newText 0 oc
    rw [redo, if_neg (by omega), hitem]
    exact ⟨by simp [hrep.1], by simp [hrep.2]⟩

/-- A sample state holding one recorded edit: seg1 was edited from
hello world to bye, and the segment shows the new text. -/
def sampleEditedState : HookState where
  transcript := some { sampleTranscript with segments :=
    [{ sampleSegment with text := "bye", is_edited := true }] }
  loading := false
  error := none
  speakerNames := buildSpeakerNames [sampleLabel]
  editHistory := [{ segmentId := "seg1", previousText := "hello world", newText := "bye",
                    timestamp := 1 }]
  historyIndex := 0
  requests := [.updateSegment "seg1" "bye"]

/-- Witness for C1: undo at the one-entry sample state keeps the log and
decrements the cursor. -/
theorem C1_witness :
    (undo sampleEditedState .ok).editHistory = sampleEditedState.editHistory ∧
    (undo sampleEditedState .ok).historyIndex = sampleEditedState.historyIndex - 1 :=
  C1_replay_suppression_keeps_log_linear.2.1 sampleEditedState .ok (by decide) (by decide)

/-- The branch-truncation demonstration state: record textA, record textB,
undo, record textC, all server calls succeeding. -/
def branchState : HookState :=
  runOps sampleState
    [.edit "seg1" "textA" 10 .ok, .edit "seg1" "textB" 11 .ok, .undoOp .ok,
     .edit "seg1" "textC" 12 .ok]

/-- C3: recording an edit keeps only the log up to the cursor, appends the
new entry (evicting the oldest entry if the cap is passed), so entries
after the cursor are discarded; in particular after record A, record B,
undo, record C, redo is a no-op and canRedo is false. -/
theorem C3_record_truncates_future_entries :
    (∀ (s : HookState) (sid text : String) (now : Int) (oc : ServerOutcome) (t : Transcript)
      (segment : Segment),
      s.transcript = some t →
      t.segments.find? (fun sg => sg.id == sid) = some segment →
      ¬ segment.text = text →
      (updateSegmentText s sid text false now oc).editHistory =
        (let nh := s.editHistory.take (s.historyIndex + 1).toNat ++
          [{ segmentId := sid, previousText := segment.text, newText := text,
             timestamp := now }]
         if MAX_HISTORY < nh.length then nh.tail else nh))
    ∧ redo branchState .ok = branchState
    ∧ canRedo branchState = false := by
  refine ⟨?_, rfl, rfl⟩
  intro s sid text now oc t segment htr hfind hne
  rw [updateSegmentText_record s sid text now oc t segment htr hfind hne]
  cases oc <;> rfl

/-- Witness for C3: recording the first edit at the sample state yields a
one-entry log. -/
theorem C3_witness :
    (updateSegmentText sampleState "seg1" "textA" false 10 .ok).editHistory =
      [{ segmentId := "seg1", previousText := "hello world", newText := "textA",
         timestamp := 10 }] := by
  have h := C3_record_truncates_future_entries.1 sampleState "seg1" "textA" 10 .ok
    sampleTranscript sampleSegment rfl rfl (by decide)
  simpa using h

/-- History fields of a recording call: truncate at the cursor, push,
evict past the cap; cursor is bumped and clamped. -/
theorem updateSegmentText_record_history (s : HookState) (sid text : String) (now : Int)
    (oc : ServerOutcome) (t : Transcript) (segment : Segment)
    (htr : s.transcript = some t)
    (hfind : t.segments.find? (fun sg => sg.id == sid) = some segment)
    (hne : ¬ segment.text = text) :
    (updateSegmentText s sid text false now oc).editHistory =
      (if MAX_HISTORY <
          (s.editHistory.take (s.historyIndex + 1).toNat ++
            [({ segmentId := sid, previousText := segment.text, newText := text,
                timestamp := now } : EditHistoryItem)]).length
       then
        (s.editHistory.take (s.historyIndex + 1).toNat ++
          [({ segmentId := sid, previousText := segment.text, newText := text,
              timestamp := now } : EditHistoryItem)]).tail
       else
        s.editHistory.take (s.historyIndex + 1).toNat ++
          [({ segmentId := sid, previousText := segment.text, newText := text,
              timestamp := now } : EditHistoryItem)]) ∧
    (updateSegmentText s sid text false now oc).historyIndex =
      min (s.historyIndex + 1) ((MAX_HISTORY : Int) - 1) := by
  rw [updateSegmentText_record s sid text now oc t segment htr hfind hne]
  cases oc <;> exact ⟨rfl, rfl⟩

/-- renameSpeaker never touches the history log or the cursor. -/
theorem renameSpeaker_history (s : HookState) (labelId name : String) (oc : ServerOutcome) :
    (renameSpeaker s labelId name oc).editHistory = s.editHistory ∧
    (renameSpeaker s labelId name oc).historyIndex = s.historyIndex := by
  cases htr : s.transcript with
  | none => simp [renameSpeaker, htr]
  | some t =>
    cases hf : t.speaker_labels.find? (fun l => l.id == labelId) with
    | none => simp [renameSpeaker, htr, hf]
    | some label => cases oc <;> simp [renameSpeaker, htr, hf]

/-- Every operation preserves the history invariant. -/
theorem stepOp_HistInv (s : HookState) (op : HookOp) (h : HistInv s) : HistInv (stepOp s op) := by
  obtain ⟨hlen, hm1, hlast⟩ := h
  cases op with
  | load r =>
    cases r with
    | ok t => exact ⟨by simp [stepOp, loadTranscript, MAX_HISTORY], by simp [stepOp, loadTranscript], by simp [stepOp, loadTranscript]⟩
    | error msg => exact ⟨hlen, hm1, hlast⟩
  | rename lid nm oc =>
    have hr := renameSpeaker_history s lid nm oc
    exact ⟨by rw [stepOp, hr.1]; exact hlen, by rw [stepOp, hr.2]; exact hm1,
           by rw [stepOp, hr.1, hr.2]; exact hlast⟩
  | undoOp oc =>
    rw [stepOp, undo]
    by_cases hneg : s.historyIndex < 0
    · rw [if_pos hneg]; exact ⟨hlen, hm1, hlast⟩
    · rw [if_neg hneg]
      cases hget : s.editHistory.get? s.historyIndex.toNat with
      | none => exact ⟨hlen, hm1, hlast⟩
      | some item =>
        have hrep := updateSegmentText_replay_history s item.segmentId item.previousText 0 oc
        refine ⟨by simpa [hrep.1] using hlen, by simp [hrep.2]; omega,
          by simp [hrep.1, hrep.2]; omega⟩
  | redoOp oc =>
    rw [stepOp, redo]
    by_cases hguard : (s.editHistory.length : Int) - 1 ≤ s.historyIndex
    · rw [if_pos hguard]; exact ⟨hlen, hm1, hlast⟩
    · rw [if_neg hguard]
      cases hget : s.editHistory.get? (s.historyIndex + 1).toNat with
      | none => exact ⟨hlen, hm1, hlast⟩
      | some item =>
        have hrep := updateSegmentText_replay_history s item.segmentId item.newText 0 oc
        refine ⟨by simpa [hrep.1] using hlen, by simp [hrep.2]; omega,
          by simp [hrep.1, hrep.2]; omega⟩
  | edit sid text now oc =>
    rw [stepOp]
    cases htr : s.transcript with
    | none =>
      rw [updateSegmentText_no_transcript s sid text false now oc htr]
      exact ⟨hlen, hm1, hlast⟩
    | some t =>
      cases hf : t.segments.find? (fun sg => sg.id == sid) with
      | none =>
        rw [updateSegmentText_noop s sid text false now oc t htr (Or.inl hf)]
        exact ⟨hlen, hm1, hlast⟩
      | some segment =>
        by_cases he : segment.text = text
        · rw [updateSegmentText_noop s sid text false now oc t htr (Or.inr ⟨segment, hf, he⟩)]
          exact ⟨hlen, hm1, hlast⟩
        · obtain ⟨hh, hi⟩ :=
            updateSegmentText_record_history s sid text now oc t segment htr hf he
          simp only [MAX_HISTORY] at hlen
          have hnh : (s.editHistory.take (s.historyIndex + 1).toNat ++
              [({ segmentId := sid, previousText := segment.text, newText := text,
                  timestamp := now } : EditHistoryItem)]).length =
              (s.historyIndex + 1).toNat + 1 := by
            simp [List.length_take]
            omega
          refine ⟨?_, ?_, ?_⟩
          · rw [hh]
            split
            · rw [List.length_tail, hnh]
              simp only [MAX_HISTORY]
              omega
            · rename_i hcap
              rw [hnh] at hcap
              rw [hnh]
              simp only [MAX_HISTORY] at hcap ⊢
              omega
          · rw [hi]
            simp only [MAX_HISTORY]
            omega
          · rw [hh, hi]
            split
            · rw [List.length_tail, hnh]
              rename_i hcap
              rw [hnh] at hcap
              simp only [MAX_HISTORY] at hcap ⊢
              omega
            · rename_i hcap
              rw [hnh] at hcap
              rw [hnh]
              simp only [MAX_HISTORY] at hcap ⊢
              omega

/-- C4: over any sequence of operations the history log never exceeds 50
entries and the cursor stays in the valid range; when a recording edit
happens with the cursor at the cap boundary (an append would exceed the
cap), the oldest entry is evicted, the cursor stays at the cap boundary so
it still points at the newly appended last entry, and the log is exactly
the old log without its head plus the new entry, so the evicted entry is
no longer reachable by undo. -/
theorem C4_history_capped_eviction_keeps_cursor_valid :
    (∀ (s0 : HookState) (ops : List HookOp), HistInv s0 → HistInv (runOps s0 ops))
    ∧ (∀ (s : HookState) (sid text : String) (now : Int) (oc : ServerOutcome)
        (t : Transcript) (segment : Segment),
        HistInv s →
        s.transcript = some t →
        t.segments.find? (fun sg => sg.id == sid) = some segment →
        ¬ segment.text = text →
        s.historyIndex = (MAX_HISTORY : Int) - 1 →
        (updateSegmentText s sid text false now oc).editHistory =
          s.editHistory.tail ++
            [({ segmentId := sid, previousText := segment.text, newText := text,
                timestamp := now } : EditHistoryItem)] ∧
        (updateSegmentText s sid text false now oc).historyIndex = s.historyIndex ∧
        (updateSegmentText s sid text false now oc).editHistory.length = MAX_HISTORY ∧
        (updateSegmentText s sid text false now oc).editHistory.get?
            (updateSegmentText s sid text false now oc).historyIndex.toNat =
          some ({ segmentId := sid, previousText := segment.text, newText := text,
                  timestamp := now } : EditHistoryItem)) := by
  constructor
  · intro s0 ops h
    induction ops generalizing s0 with
    | nil => exact h
    | cons op ops ih => exact ih (stepOp s0 op) (stepOp_HistInv s0 op h)
  · intro s sid text now oc t segment hinv htr hf he hidx
    obtain ⟨hlen, hm1, hlast⟩ := hinv
    obtain ⟨hh, hi⟩ := updateSegmentText_record_history s sid text now oc t segment htr hf he
    simp only [MAX_HISTORY] at hlen hidx hi hh ⊢
    have hlen50 : s.editHistory.length = 50 := by omega
    have htake : s.editHistory.take (s.historyIndex + 1).toNat = s.editHistory :=
      List.take_of_length_le (by omega)
    rw [htake] at hh
    rw [if_pos (by simp [hlen50])] at hh
    have htail : (s.editHistory ++
        [({ segmentId := sid, previousText := segment.text, newText := text,
            timestamp := now } : EditHistoryItem)]).tail =
        s.editHistory.tail ++
          [({ segmentId := sid, previousText := segment.text, newText := text,
              timestamp := now } : EditHistoryItem)] := by
      rcases hE : s.editHistory with _ | ⟨a, l⟩
      · rw [hE] at hlen50; simp at hlen50
      · rfl
    rw [htail] at hh
    have htaillen : s.editHistory.tail.length = 49 := by
      rw [List.length_tail, hlen50]
    refine ⟨hh, by rw [hi]; omega, by rw [hh]; simp [htaillen], ?_⟩
    rw [hh, hi]
    have hnat : (min (s.historyIndex + 1) ((50 : Nat) - 1 : Int)).toNat =
        s.editHistory.tail.length := by
      rw [htaillen]; omega
    rw [hnat]
    rw [List.get?_eq_getElem?]
    exact List.getElem?_concat_length _ _

/-- A state whose history log is full: 50 entries with the cursor on the
last one, over the sample transcript. -/
def fullHistoryState : HookState where
  transcript := some sampleTranscript
  loading := false
  error := none
  speakerNames := buildSpeakerNames [sampleLabel]
  editHistory := List.replicate 50
    { segmentId := "seg1", previousText := "old", newText := "hello world", timestamp := 0 }
  historyIndex := 49
  requests := []

/-- Witness for C4: the invariant survives a concrete load-then-edit run
from the initial state, and a recording edit on the full-history state
evicts the oldest entry while the cursor keeps pointing at the new last
entry. -/
theorem C4_witness :
    HistInv (runOps initState
      [.load (.ok sampleTranscript), .edit "seg1" "textA" 10 .ok, .undoOp .ok]) ∧
    ((updateSegmentText fullHistoryState "seg1" "textZ" false 7 .ok).editHistory =
        fullHistoryState.editHistory.tail ++
          [({ segmentId := "seg1", previousText := "hello world", newText := "textZ",
              timestamp := 7 } : EditHistoryItem)] ∧
      (updateSegmentText fullHistoryState "seg1" "textZ" false 7 .ok).historyIndex =
        fullHistoryState.historyIndex ∧
      (updateSegmentText fullHistoryState "seg1" "textZ" false 7 .ok).editHistory.length =
        MAX_HISTORY ∧
      (updateSegmentText fullHistoryState "seg1" "textZ" false 7 .ok).editHistory.get?
          (updateSegmentText fullHistoryState "seg1" "textZ" false 7 .ok).historyIndex.toNat =
        some ({ segmentId := "seg1", previousText := "hello world", newText := "textZ",
                timestamp := 7 } : EditHistoryItem)) :=
  ⟨C4_history_capped_eviction_keeps_cursor_valid.1 initState
      [.load (.ok sampleTranscript), .edit "seg1" "textA" 10 .ok, .undoOp .ok]
      ⟨by decide, by decide, by decide⟩,
   C4_history_capped_eviction_keeps_cursor_valid.2 fullHistoryState "seg1" "textZ" 7 .ok
      sampleTranscript sampleSegment ⟨by decide, by decide, by decide⟩ rfl rfl (by decide)
      (by decide)⟩

/-- find? by id commutes with mapping an id-preserving function. -/
theorem find?_map_keep_id (l : List Segment) (sid : String) (f : Segment → Segment)
    (hid : ∀ sg, (f sg).id = sg.id) :
    (l.map f).find? (fun sg => sg.id == sid) = (l.find? (fun sg => sg.id == sid)).map f := by
  rw [List.find?_map]
  have hfun : ((fun sg => sg.id == sid) ∘ f) = (fun sg : Segment => sg.id == sid) := by
    funext sg
    simp [Function.comp, hid sg]
  rw [hfun]

/-- After a successful suppressed write of v to the segment sid, the
transcript shows v as that segment text (whether the write was a no-op
because the text already was v, or an optimistic update). -/
theorem replay_ok_shows_text (s : HookState) (t : Transcript) (sid v : String)
    (segment : Segment) (htr : s.transcript = some t)
    (hfind : t.segments.find? (fun sg => sg.id == sid) = some segment) :
    ∃ t2 seg2, (updateSegmentText s sid v true 0 .ok).transcript = some t2 ∧
      t2.segments.find? (fun sg => sg.id == sid) = some seg2 ∧ seg2.text = v := by
  have hpred := List.find?_some hfind
  by_cases he : segment.text = v
  · rw [updateSegmentText_noop s sid v true 0 .ok t htr (Or.inr ⟨segment, hfind, he⟩)]
    exact ⟨t, segment, htr, hfind, he⟩
  · have h := updateSegmentText_replay s sid v 0 .ok t segment htr hfind he
    refine ⟨{ t with segments := t.segments.map (fun sg =>
        if sg.id == sid then { sg with text := v, is_edited := true } else sg) },
      { segment with text := v, is_edited := true }, ?_, ?_, rfl⟩
    · rw [h]
    · rw [find?_map_keep_id t.segments sid _
          (fun sg => by by_cases hc : (sg.id == sid) = true <;> simp [hc]),
        hfind, Option.map_some', if_pos hpred]

/-- The result of an applying undo with a successful server call: log
kept, cursor moved back, transcript as after the suppressed write of the
previous text. -/
theorem undo_ok_fields (s : HookState) (e : EditHistoryItem)
    (hguard : 0 ≤ s.historyIndex)
    (hget : s.editHistory.get? s.historyIndex.toNat = some e) :
    (undo s .ok).editHistory = s.editHistory ∧
    (undo s .ok).historyIndex = s.historyIndex - 1 ∧
    (undo s .ok).transcript =
      (updateSegmentText s e.segmentId e.previousText true 0 .ok).transcript := by
  rw [undo, if_neg (by omega), hget]
  have hrep := updateSegmentText_replay_history s e.segmentId e.previousText 0 .ok
  exact ⟨by simp [hrep.1], by simp [hrep.2], by simp⟩

/-- The result of an applying redo with a successful server call: cursor
moved forward, and the entry segment shows the entry newText. -/
theorem redo_ok_fields (V : HookState) (tU : Transcript) (e : EditHistoryItem)
    (segU : Segment)
    (hVtr : V.transcript = some tU)
    (hVguard : V.historyIndex < (V.editHistory.length : Int) - 1)
    (hVget : V.editHistory.get? (V.historyIndex + 1).toNat = some e)
    (hVfind : tU.segments.find? (fun sg => sg.id == e.segmentId) = some segU) :
    (redo V .ok).historyIndex = V.historyIndex + 1 ∧
    ∃ t2 seg2, (redo V .ok).transcript = some t2 ∧
      t2.segments.find? (fun sg => sg.id == e.segmentId) = some seg2 ∧
      seg2.text = e.newText := by
  rw [redo, if_neg (by omega), hVget]
  obtain ⟨t2, seg2, h1, h2, h3⟩ :=
    replay_ok_shows_text V tU e.segmentId e.newText segU hVtr hVfind
  have hrep := updateSegmentText_replay_history V e.segmentId e.newText 0 .ok
  exact ⟨by simp [hrep.2], t2, seg2, by simp [h1], h2, h3⟩

/-- C2: from a state whose current history entry matches a segment whose
text is the recorded new text, undo then redo (both server calls
succeeding) restores that segment text to its pre-undo value, the recorded
new text, and returns the cursor to its pre-undo position. -/
theorem C2_undo_then_redo_restores_text_and_cursor :
    ∀ (s : HookState) (t : Transcript) (e : EditHistoryItem) (segment : Segment),
      s.transcript = some t →
      0 ≤ s.historyIndex →
      s.historyIndex ≤ (s.editHistory.length : Int) - 1 →
      s.editHistory.get? s.historyIndex.toNat = some e →
      t.segments.find? (fun sg => sg.id == e.segmentId) = some segment →
      segment.text = e.newText →
      (redo (undo s .ok) .ok).historyIndex = s.historyIndex ∧
      ∃ t2 seg2, (redo (undo s .ok) .ok).transcript = some t2 ∧
        t2.segments.find? (fun sg => sg.id == e.segmentId) = some seg2 ∧
        seg2.text = segment.text := by
  intro s t e segment htr h0 hlast hget hfind htext
  obtain ⟨hUlog, hUidx, hUtr⟩ := undo_ok_fields s e h0 hget
  obtain ⟨tU, segU, hU_tr, hU_find, hU_text⟩ :=
    replay_ok_shows_text s t e.segmentId e.previousText segment htr hfind
  have hVget : (undo s .ok).editHistory.get? ((undo s .ok).historyIndex + 1).toNat = some e := by
    rw [hUlog, hUidx]
    have harith : s.historyIndex - 1 + 1 = s.historyIndex := by omega
    rw [harith, hget]
  have hVguard : (undo s .ok).historyIndex < ((undo s .ok).editHistory.length : Int) - 1 := by
    rw [hUlog, hUidx]
    omega
  obtain ⟨hidx, t2, seg2, h1, h2, h3⟩ :=
    redo_ok_fields (undo s .ok) tU e segU (hUtr.trans hU_tr) hVguard hVget hU_find
  refine ⟨?_, t2, seg2, h1, h2, by rw [h3, ← htext]⟩
  rw [hidx, hUidx]
  omega

/-- Witness for C2 at the one-entry sample state: undo then redo shows
bye again and the cursor returns to 0. -/
theorem C2_witness :
    (redo (undo sampleEditedState .ok) .ok).historyIndex = sampleEditedState.historyIndex ∧
    ∃ t2 seg2, (redo (undo sampleEditedState .ok) .ok).transcript = some t2 ∧
      t2.segments.find? (fun sg => sg.id == "seg1") = some seg2 ∧
      seg2.text = "bye" :=
  C2_undo_then_redo_restores_text_and_cursor sampleEditedState
    { sampleTranscript with segments := [{ sampleSegment with text := "bye", is_edited := true }] }
    { segmentId := "seg1", previousText := "hello world", newText := "bye", timestamp := 1 }
    { sampleSegment with text := "bye", is_edited := true }
    rfl (by decide) (by decide) rfl rfl rfl

/-- The rename failure path does not restore the stored custom name: at
the sample state, renaming the label lab1 to Bob with a failing server
call leaves custom_name as Bob in the transcript, not the prior value
(none) nor the generated default. -/
theorem C8_counterexample_rename_failure_keeps_stored_custom_name :
    ((renameSpeaker sampleState "lab1" "Bob" (.fail "network down")).transcript.map
      (fun t => t.speaker_labels.map (fun l => l.custom_name))) = some [some "Bob"] ∧
    sampleLabel.custom_name = none ∧
    (some "Bob" : Option String) ≠ none ∧
    (some "Bob" : Option String) ≠ some ("Speaker " ++ sampleLabel.speaker_id) := by
  refine ⟨rfl, rfl, by decide, by decide⟩

/-- C8 amended: on rename failure the displayed name record entry for the
speaker is reverted to the prior custom name, or to the generated default
Speaker id when none existed, and the error is surfaced; the stored
custom_name in the transcript keeps the new name (it is not reverted). -/
theorem C8_amended_rename_failure_reverts_display_name_only :
    ∀ (s : HookState) (labelId name msg : String) (t : Transcript) (label : SpeakerLabel),
      s.transcript = some t →
      t.speaker_labels.find? (fun l => l.id == labelId) = some label →
      (renameSpeaker s labelId name (.fail msg)).speakerNames label.speaker_id =
        some (jsOrDefault label.custom_name ("Speaker " ++ label.speaker_id)) ∧
      (renameSpeaker s labelId name (.fail msg)).error = some msg ∧
      (renameSpeaker s labelId name (.fail msg)).transcript =
        some { t with speaker_labels := t.speaker_labels.map (fun l =>
          if l.id == labelId then { l with custom_name := some name } else l) } := by
  intro s labelId name msg t label htr hfind
  refine ⟨?_, ?_, ?_⟩ <;> simp [renameSpeaker, htr, hfind, setName]

/-- Witness for the amended C8 at the sample state. -/
theorem C8_witness :
    (renameSpeaker sampleState "lab1" "Bob" (.fail "boom")).speakerNames
        sampleLabel.speaker_id =
      some (jsOrDefault sampleLabel.custom_name ("Speaker " ++ sampleLabel.speaker_id)) ∧
    (renameSpeaker sampleState "lab1" "Bob" (.fail "boom")).error = some "boom" ∧
    (renameSpeaker sampleState "lab1" "Bob" (.fail "boom")).transcript =
      some { sampleTranscript with
        speaker_labels := sampleTranscript.speaker_labels.map (fun l =>
          if l.id == "lab1" then { l with custom_name := some "Bob" } else l) } :=
  C8_amended_rename_failure_reverts_display_name_only sampleState "lab1" "Bob" "boom"
    sampleTranscript sampleLabel rfl rfl

/-! ## Transcription status polling (the transcribe function of the
useAudioUpload hook) -/

inductive UploadState where
  | idle
  | uploading
  | uploaded
  | transcribing
  | completed
  | error
deriving DecidableEq, Repr

structure TranscriptionStatus where
  id : String
  status : TranscriptStatus
  progress : Option Int
  error_message : Option String
deriving DecidableEq, Repr

/-- What one timer tick of the poll loop observes: the status request
resolves with a status payload, or it throws with a message. -/
inductive PollEvent where
  | resp (status : TranscriptionStatus)
  | throw (msg : String)
deriving DecidableEq, Repr

/-- The state of the poll loop: whether the interval is still scheduled,
how many times clearInterval ran, how many status requests were issued,
and the component state the callbacks set. -/
structure PollState where
  intervalActive : Bool
  clearCount : Nat
  statusRequests : Nat
  state : UploadState
  progress : Int
  error : Option String
deriving DecidableEq, Repr

/-- One firing of the 2-second interval: a cleared interval no longer
fires; otherwise the callback requests the status and handles it, or
handles the thrown error, clearing the interval on completed, failed, or
error. The progress fallback status.progress or 0 is getD 0, since an
integer is falsy exactly when it is 0, which the fallback maps to 0
again. -/
def pollTick (s : PollState) (ev : PollEvent) : PollState :=
  if s.intervalActive = false then s
  else
    let s0 := { s with statusRequests := s.statusRequests + 1 }
    match ev with
    | .throw msg =>
      { s0 with intervalActive := false, clearCount := s0.clearCount + 1,
                state := .error, error := some msg }
    | .resp st =>
      let s1 := { s0 with progress := st.progress.getD 0 }
      if st.status = .completed then
        { s1 with intervalActive := false, clearCount := s1.clearCount + 1,
                  state := .completed, progress := 100 }
      else if st.status = .failed then
        { s1 with intervalActive := false, clearCount := s1.clearCount + 1,
                  state := .error,
                  error := some (jsOrDefault st.error_message "Transcription failed") }
      else s1

/-- The poll loop state right after startTranscription succeeds and the
interval is scheduled. -/
def pollInit : PollState where
  intervalActive := true
  clearCount := 0
  statusRequests := 0
  state := .transcribing
  progress := 0
  error := none

def runPoll (s : PollState) (evs : List PollEvent) : PollState := evs.foldl pollTick s

/-- A tick observation is terminal when the request throws or reports
completed or failed. -/
def isTerminal (ev : PollEvent) : Bool :=
  match ev with
  | .throw _ => true
  | .resp st => st.status == .completed || st.status == .failed

theorem pollTick_inactive (s : PollState) (ev : PollEvent)
    (h : s.intervalActive = false) : pollTick s ev = s := by
  simp [pollTick, h]

theorem runPoll_inactive (evs : List PollEvent) (s : PollState)
    (h : s.intervalActive = false) : runPoll s evs = s := by
  induction evs with
  | nil => rfl
  | cons e es ih =>
    show runPoll (pollTick s e) es = s
    rw [pollTick_inactive s e h, ih]

theorem pollTick_nonterminal (s : PollState) (ev : PollEvent)
    (hact : s.intervalActive = true) (hterm : isTerminal ev = false) :
    (pollTick s ev).intervalActive = true ∧
    (pollTick s ev).clearCount = s.clearCount ∧
    (pollTick s ev).statusRequests = s.statusRequests + 1 := by
  cases ev with
  | throw msg => simp [isTerminal] at hterm
  | resp st =>
    simp only [isTerminal, Bool.or_eq_false_iff, beq_eq_false_iff_ne, ne_eq] at hterm
    simp [pollTick, hact, hterm.1, hterm.2]

theorem pollTick_terminal (s : PollState) (ev : PollEvent)
    (hact : s.intervalActive = true) (hterm : isTerminal ev = true) :
    (pollTick s ev).intervalActive = false ∧
    (pollTick s ev).clearCount = s.clearCount + 1 ∧
    (pollTick s ev).statusRequests = s.statusRequests + 1 := by
  cases ev with
  | throw msg => simp [pollTick, hact]
  | resp st =>
    simp only [isTerminal, Bool.or_eq_true, beq_iff_eq] at hterm
    rcases hterm with hc | hf
    · simp [pollTick, hact, hc]
    · by_cases hc : st.status = TranscriptStatus.completed
      · simp [pollTick, hact, hc]
      · simp [pollTick, hact, hc, hf]

theorem runPoll_nonterminal : ∀ (evs : List PollEvent) (s : PollState),
    s.intervalActive = true → (∀ e ∈ evs, isTerminal e = false) →
    (runPoll s evs).intervalActive = true ∧
    (runPoll s evs).clearCount = s.clearCount ∧
    (runPoll s evs).statusRequests = s.statusRequests + evs.length := by
  intro evs
  induction evs with
  | nil => intro s h _; exact ⟨h, rfl, rfl⟩
  | cons e es ih =>
    intro s hact hterm
    have h1 := pollTick_nonterminal s e hact (hterm e (List.mem_cons_self e es))
    have h2 := ih (pollTick s e) h1.1 (fun x hx => hterm x (List.mem_cons_of_mem e hx))
    refine ⟨h2.1, ?_, ?_⟩
    · show (runPoll (pollTick s e) es).clearCount = s.clearCount
      rw [h2.2.1, h1.2.1]
    · show (runPoll (pollTick s e) es).statusRequests = s.statusRequests + (e :: es).length
      rw [h2.2.2, h1.2.2]
      simp
      omega

/-- C9: once a tick observes a terminal status (completed or failed) or
throws, the interval is cleared exactly once and no further status
requests are issued: however many later ticks the event list holds, the
request count stops at the prefix before the terminal observation plus
one. -/
theorem C9_poll_cleared_once_then_silent :
    ∀ (evs1 : List PollEvent) (ev : PollEvent) (evs2 : List PollEvent),
      (∀ e ∈ evs1, isTerminal e = false) →
      isTerminal ev = true →
      (runPoll pollInit (evs1 ++ ev :: evs2)).clearCount = 1 ∧
      (runPoll pollInit (evs1 ++ ev :: evs2)).statusRequests = evs1.length + 1 ∧
      (runPoll pollInit (evs1 ++ ev :: evs2)).intervalActive = false := by
  intro evs1 ev evs2 h1 h2
  have hmid := runPoll_nonterminal evs1 pollInit rfl h1
  have hsplit : runPoll pollInit (evs1 ++ ev :: evs2) =
      runPoll (pollTick (runPoll pollInit evs1) ev) evs2 := by
    show (evs1 ++ ev :: evs2).foldl pollTick pollInit = _
    rw [List.foldl_append]
    rfl
  have hterm := pollTick_terminal (runPoll pollInit evs1) ev hmid.1 h2
  rw [hsplit, runPoll_inactive evs2 _ hterm.1]
  refine ⟨?_, ?_, hterm.1⟩
  · rw [hterm.2.1, hmid.2.1]
    show 0 + 1 = 1
    omega
  · rw [hterm.2.2, hmid.2.2]
    show 0 + evs1.length + 1 = evs1.length + 1
    omega

/-- Witness for C9: one processing tick, then a failed tick, then a
would-be tick that never fires. -/
theorem C9_witness :
    (runPoll pollInit ([.resp ⟨"tr1", .processing, some 40, none⟩] ++
      (.resp ⟨"tr1", .failed, none, some "bad audio"⟩) ::
        [.resp ⟨"tr1", .processing, some 90, none⟩])).clearCount = 1 ∧
    (runPoll pollInit ([.resp ⟨"tr1", .processing, some 40, none⟩] ++
      (.resp ⟨"tr1", .failed, none, some "bad audio"⟩) ::
        [.resp ⟨"tr1", .processing, some 90, none⟩])).statusRequests =
      [PollEvent.resp ⟨"tr1", .processing, some 40, none⟩].length + 1 ∧
    (runPoll pollInit ([.resp ⟨"tr1", .processing, some 40, none⟩] ++
      (.resp ⟨"tr1", .failed, none, some "bad audio"⟩) ::
        [.resp ⟨"tr1", .processing, some 90, none⟩])).intervalActive = false :=
  C9_poll_cleared_once_then_silent
    [.resp ⟨"tr1", .processing, some 40, none⟩]
    (.resp ⟨"tr1", .failed, none, some "bad audio"⟩)
    [.resp ⟨"tr1", .processing, some 90, none⟩]
    (by decide) (by decide)

end Regen